import Mathlib

/-!
Shallow embedding of python-direnv (src/direnv/main.py) and verification of
its specification claims.

Filesystem paths are modelled as lists of path components: an absolute path
such as /a/b is the list ["a", "b"].  Python path values (which may be
relative or absolute strings) are modelled by the PyPath structure; the empty
string path "" is the relative path with no components.  The external world
(file contents, directories, symlink resolution, the shell subprocess, the
SHA-256 digest, the user's home directory and the directories resolved by
os.getcwd and by the caller-frame introspection in find_direnv) is a World
record of functions; every definition below is a direct translation of the
corresponding Python function, parameterised by the World.  Functions that
may execute shell code additionally return the list of absolute file paths
handed to the shell executor, so that properties about what gets executed
can be stated; the Python code has no such return value, the trace is pure
instrumentation.  Errors raised by the Python code are modelled with Except.
-/

namespace Direnv

/-- An absolute filesystem path, as its list of components. -/
abbrev AbsPath := List String

/-- A Python path string: either absolute or relative, with its components.
The empty string "" is ⟨false, []⟩. -/
structure PyPath where
  isAbs : Bool
  comps : List String
deriving DecidableEq, Repr

/-- The empty-string path "", the not-found sentinel of find_direnv. -/
def emptyPath : PyPath := ⟨false, []⟩

/-- Render an absolute path as the string Python manipulates. -/
def renderAbs (p : AbsPath) : String :=
  "/" ++ String.intercalate "/" p

/-- Render a PyPath as the string Python manipulates. -/
def renderPyPath (p : PyPath) : String :=
  if p.isAbs then renderAbs p.comps else String.intercalate "/" p.comps

/-- Split a path string into components (used for XDG_DATA_HOME values). -/
def pathCompsOfString (s : String) : AbsPath :=
  (s.splitOn "/").filter (fun c => c ≠ "")

/-- Result of subprocess.run: exit code, captured stdout and stderr. -/
structure ShellResult where
  returncode : Int
  stdout : String
  stderr : String

/-- The Python exceptions raised by main.py. -/
inductive Err where
  | ioError (msg : String)
  | notImplementedError (msg : String)
  | permissionError (msg : String)
  | runtimeError (msg : String)
deriving DecidableEq, Repr

deriving instance DecidableEq for Except

/-- os.environ, modelled as an association list (insertion-ordered, unique
keys maintained by envSet). -/
abbrev EnvMap := List (String × String)

/-- A Python Dict[str, Optional[str]] as an insertion-ordered assoc list. -/
abbrev EnvDict := List (String × Option String)

/-- os.environ.get(k). -/
def envGet (env : EnvMap) (k : String) : Option String :=
  (env.find? (fun q => decide (q.1 = k))).map Prod.snd

/-- `k in os.environ`. -/
def envContains (env : EnvMap) (k : String) : Bool :=
  (envGet env k).isSome

/-- os.environ[k] = v : replace in place if present, else append. -/
def envSet (env : EnvMap) (k v : String) : EnvMap :=
  if env.any (fun q => decide (q.1 = k)) then
    env.map (fun q => if q.1 = k then (k, v) else q)
  else
    env ++ [(k, v)]

/-- Python dict insertion: replace in place if the key is present, else
append. -/
def dictInsert (d : EnvDict) (k : String) (v : Option String) : EnvDict :=
  if d.any (fun q => decide (q.1 = k)) then
    d.map (fun q => if q.1 = k then (k, v) else q)
  else
    d ++ [(k, v)]

/-- Build a Python dict from a sequence of pairs (dict comprehension). -/
def dictOfPairs (l : EnvDict) : EnvDict :=
  l.foldl (fun d kv => dictInsert d kv.1 kv.2) []

/-- The external world: file system, process and digest primitives.
contents p = some s when an on-disk file exists at absolute path p with
text s (none for directories and missing paths); isDir marks directories;
realpath is symlink resolution (os.path.realpath); home is Path.home();
cwd is os.getcwd(); callerDir is the directory find_direnv's caller-frame
introspection resolves to when it does not use cwd; isInteractive and
frozen model _is_interactive() and getattr(sys, "frozen", False);
shellRun p is the result of
`cd {dirname p} 2>&1 && source {p} 2>&1 && declare -x`;
sha256hex is hashlib.sha256(...).hexdigest() on the utf-8 input string. -/
structure World where
  contents : AbsPath → Option String
  isDir : AbsPath → Bool
  realpath : AbsPath → AbsPath
  home : AbsPath
  cwd : AbsPath
  callerDir : AbsPath
  isInteractive : Bool
  frozen : Bool
  shellRun : AbsPath → ShellResult
  sha256hex : String → String

/-- os.path.abspath. -/
def abspath (w : World) (p : PyPath) : AbsPath :=
  if p.isAbs then p.comps else w.cwd ++ p.comps

/-- os.path.exists on an absolute path. -/
def pathExists (w : World) (p : AbsPath) : Bool :=
  (w.contents p).isSome || w.isDir p

/-- os.path.isfile on an absolute path. -/
def isFile (w : World) (p : AbsPath) : Bool :=
  (w.contents p).isSome

/-- os.path.join of a directory and a possibly-absolute path: an absolute
second argument discards the first. -/
def joinPath (d : AbsPath) (f : PyPath) : AbsPath :=
  if f.isAbs then f.comps else d ++ f.comps

/-- direnv_file_hash: sha256 hex digest of "{abs_path}\n{contents}";
raises an I/O error when the file cannot be read. -/
def direnv_file_hash (w : World) (path : PyPath) : Except Err String :=
  let abs_path := abspath w path
  match w.contents abs_path with
  | none => .error (.ioError ("cannot read " ++ renderAbs abs_path))
  | some content => .ok (w.sha256hex (renderAbs abs_path ++ "\n" ++ content))

/-- _xdg_data_home: the XDG_DATA_HOME variable when set and non-empty,
else ~/.local/share. -/
def xdg_data_home (w : World) (env : EnvMap) : AbsPath :=
  match envGet env "XDG_DATA_HOME" with
  | some v => if v = "" then w.home ++ [".local", "share"] else pathCompsOfString v
  | none => w.home ++ [".local", "share"]

/-- Python str.strip() on a character list: drop surrounding whitespace. -/
def pyStripChars (l : List Char) : List Char :=
  ((l.dropWhile Char.isWhitespace).reverse.dropWhile Char.isWhitespace).reverse

/-- Python str.strip(). -/
def pyStrip (s : String) : String :=
  String.mk (pyStripChars s.toList)

/-- is_allowed: the allow-list gate.  Looks up
{data_home}/direnv/allow/{hash}; when that entry exists its content,
stripped of surrounding whitespace, must equal os.path.realpath(path). -/
def is_allowed (w : World) (env : EnvMap) (path : PyPath) : Except Err Bool :=
  match direnv_file_hash w path with
  | .error e => .error e
  | .ok file_hash_value =>
    let allowed_file_path := xdg_data_home w env ++ ["direnv", "allow", file_hash_value]
    if pathExists w allowed_file_path then
      match w.contents allowed_file_path with
      | some stored => .ok (renderAbs (w.realpath (abspath w path)) == pyStrip stored)
      | none => .error (.ioError ("cannot read " ++ renderAbs allowed_file_path))
    else
      .ok false

/-- A character matched by the regex class \w. -/
def isWordChar (c : Char) : Bool :=
  c.isAlphanum || c == '_'

/-- One line of parse_bash_env: strip the line, then match it against the
anchored regex `declare -x (\w+)="(.*)"`.  The greedy `(.*)` makes group 2
run to the last double quote of the line; text after that quote is ignored
because re.match does not require the whole line to be consumed.  Lines
that do not match yield nothing (they are only logged). -/
def parse_env_line (raw : String) : Option (String × Option String) :=
  let line := pyStripChars raw.toList
  if "declare -x ".toList.isPrefixOf line then
    let rest := line.drop 11
    let key := rest.takeWhile isWordChar
    let rest2 := rest.drop key.length
    if key.isEmpty then none
    else if rest2.take 2 = ['=', '"'] then
      let after := rest2.drop 2
      match after.reverse.dropWhile (fun c => c ≠ '"') with
      | [] => none
      | _ :: rs => some (String.mk key, some (String.mk rs.reverse))
    else none
  else none

/-- Split a character list at newline characters (str.splitlines as the
line iteration over an io.StringIO performs it, with the terminators then
removed by the strip in parse_env_line). -/
def splitAtNewlines : List Char → List (List Char)
  | [] => [[]]
  | c :: cs =>
    match splitAtNewlines cs with
    | [] => [[c]]
    | h :: t => if c = '\n' then [] :: h :: t else (c :: h) :: t

/-- parse_bash_env: parse the captured stream line by line, yielding the
pairs of the matching lines. -/
def parse_bash_env (stream : String) : List (String × Option String) :=
  ((splitAtNewlines stream.toList).map String.mk).filterMap parse_env_line

/-- direnv_as_stream: run the shell on the file (recorded in the returned
trace), raise a RuntimeError carrying stderr on a non-zero exit, else
return the captured stdout. -/
def direnv_as_stream (w : World) (path : PyPath) :
    Except Err String × List AbsPath :=
  let file_path := abspath w path
  let result := w.shellRun file_path
  (if result.returncode ≠ 0 then
    .error (.runtimeError ("Failed to source " ++ renderPyPath path ++ ": " ++ result.stderr))
  else
    .ok result.stdout,
   [file_path])

/-- The loop of _walk_to_root, with explicit fuel so that the recursion is
structural: each step yields the current directory and moves to its parent
(the list with the last component dropped).  The loop stops at the root,
whose parent is itself.  One unit of fuel per path component always
suffices, so walk_to_root_dirs below never hits the fuel bound. -/
def walk_to_root_aux : Nat → AbsPath → List AbsPath
  | _, [] => [[]]
  | 0, p => [p]
  | n + 1, p => p :: walk_to_root_aux n p.dropLast

/-- The directories yielded by _walk_to_root's loop: the directory itself,
then each parent up to and including the root. -/
def walk_to_root_dirs (p : AbsPath) : List AbsPath :=
  walk_to_root_aux p.length p

/-- The directory _walk_to_root starts walking from: the path itself, or
its containing directory when the path is a file. -/
def walkStart (w : World) (p : AbsPath) : AbsPath :=
  if (w.contents p).isSome then p.dropLast else p

/-- _walk_to_root: raises when the starting path does not exist, else
yields the directories from the starting directory up to the root. -/
def walk_to_root (w : World) (path : AbsPath) : Except Err (List AbsPath) :=
  if pathExists w path then
    .ok (walk_to_root_dirs (walkStart w path))
  else
    .error (.ioError "Starting path not found")

/-- The starting path find_direnv resolves: the current working directory
when usecwd is set, the session is interactive or sys.frozen holds, else
the directory of the caller's frame. -/
def findStart (w : World) (usecwd : Bool) : AbsPath :=
  if usecwd || w.isInteractive || w.frozen then w.cwd else w.callerDir

/-- find_direnv: walk from the starting directory towards the root and
return the first directory/filename join that is a file; return the
empty-string sentinel when none is found, or raise when
raise_error_if_not_found is set. -/
def find_direnv (w : World) (filename : PyPath)
    (raise_error_if_not_found : Bool) (usecwd : Bool) : Except Err PyPath :=
  match walk_to_root w (findStart w usecwd) with
  | .error e => .error e
  | .ok dirs =>
    match dirs.find? (fun dirname => isFile w (joinPath dirname filename)) with
    | some dirname => .ok ⟨true, joinPath dirname filename⟩
    | none =>
      if raise_error_if_not_found then .error (.ioError "File not found")
      else .ok emptyPath

/-- The keys direnv_values removes from the captured environment. -/
def excludedKeys : List String := ["OLDPWD", "PWD", "SHLVL", "_"]

/-- The dict comprehension closing direnv_values: drop the excluded keys,
keep the pairs whose value differs from the current environment's value
for that key (a key missing from the environment reads as none and so
always differs from a captured string value). -/
def reconcile_diff (env : EnvMap) (items : List (String × Option String)) : EnvDict :=
  dictOfPairs (items.filter
    (fun kv => decide (kv.1 ∉ excludedKeys ∧ envGet env kv.1 ≠ kv.2)))

/-- direnv_values: reject an explicit encoding and interpolate=False;
resolve the path (find_direnv() when neither a path nor a stream is given;
reject a stream); return the empty dict on the empty-string path; demand
is_allowed; then re-resolve with find_direnv(dotenv_path), execute the
re-resolved file and reconcile its parsed output against the environment.
The second component is the trace of executed file paths. -/
def direnv_values (w : World) (env : EnvMap) (dotenv_path : Option PyPath)
    (stream : Option String) (verbose interpolate : Bool)
    (encoding : Option String) : Except Err EnvDict × List AbsPath :=
  if encoding.isSome then
    (.error (.notImplementedError "Use LC_ALL to change the encoding for now."), [])
  else if !interpolate then
    (.error (.notImplementedError ""), [])
  else
    match
      (match dotenv_path, stream with
       | some p, _ => .ok p
       | none, none => find_direnv w ⟨false, [".envrc"]⟩ false false
       | none, some _ =>
         .error (.notImplementedError "Executing shell commands from a stream is not safe.")
       : Except Err PyPath)
    with
    | .error e => (.error e, [])
    | .ok p =>
      if p = emptyPath then (.ok [], [])
      else
        match is_allowed w env p with
        | .error e => (.error e, [])
        | .ok false =>
          (.error (.permissionError
            ("File " ++ renderPyPath p ++ " is not allowed by direnv.")), [])
        | .ok true =>
          match find_direnv w p false false with
          | .error e => (.error e, [])
          | .ok found =>
            match direnv_as_stream w found with
            | (.error e, tr) => (.error e, tr)
            | (.ok out, tr) =>
              (.ok (reconcile_diff env (parse_bash_env out)), tr)

/-- One iteration of load_direnv's write-back loop: a key already in the
environment is skipped unless override is set; otherwise a present value
is written (an absent value writes nothing). -/
def applyStep (acc : EnvMap) (kv : String × Option String) (override : Bool) : EnvMap :=
  if envContains acc kv.1 && !override then acc
  else
    match kv.2 with
    | some v => envSet acc kv.1 v
    | none => acc

/-- The write-back loop of load_direnv over all entries of the dict. -/
def apply_env (env : EnvMap) (d : EnvDict) (override : Bool) : EnvMap :=
  d.foldl (fun acc kv => applyStep acc kv override) env

/-- load_direnv: same rejections as direnv_values, then write the computed
dict into the environment and return True.  The result carries the updated
environment and the trace of executed file paths. -/
def load_direnv (w : World) (env : EnvMap) (dotenv_path : Option PyPath)
    (stream : Option String) (verbose override interpolate : Bool)
    (encoding : Option String) : Except Err Bool × EnvMap × List AbsPath :=
  if encoding.isSome then
    (.error (.notImplementedError "Use LC_ALL to change the encoding for now."), env, [])
  else if !interpolate then
    (.error (.notImplementedError ""), env, [])
  else
    match direnv_values w env dotenv_path stream verbose interpolate encoding with
    | (.error e, tr) => (.error e, env, tr)
    | (.ok env_dict, tr) => (.ok true, apply_env env env_dict override, tr)

/-- The absolute path of the allow-list entry that is_allowed consults for
a file at absolute path abs with the given contents:
{data_home}/direnv/allow/{sha256 of "{abs}\n{contents}"}. -/
def allowEntryPath (w : World) (env : EnvMap) (abs : AbsPath) (content : String) : AbsPath :=
  xdg_data_home w env ++ ["direnv", "allow", w.sha256hex (renderAbs abs ++ "\n" ++ content)]

/-- A concrete world used to evaluate the definitions: the current working
directory is /other, the caller's frame directory is /proj, the files
/other/x.envrc (contents "A") and /proj/x.envrc (contents "B") both exist,
and the allow-list contains exactly the entry for /other/x.envrc. -/
def W1 : World where
  contents := fun p =>
    if p = ["other", "x.envrc"] then some "A"
    else if p = ["proj", "x.envrc"] then some "B"
    else if p = ["home", "u", ".local", "share", "direnv", "allow", "h1"] then
      some "/other/x.envrc"
    else none
  isDir := fun p => p = ([] : AbsPath) || p = ["other"] || p = ["proj"] || p = ["home"]
  realpath := fun p => p
  home := ["home", "u"]
  cwd := ["other"]
  callerDir := ["proj"]
  isInteractive := false
  frozen := false
  shellRun := fun p =>
    if p = ["proj", "x.envrc"] then ⟨0, "declare -x FOO=\"bar\"\n", ""⟩
    else ⟨1, "", "boom"⟩
  sha256hex := fun s => if s = "/other/x.envrc\nA" then "h1" else "h0"

/-! ### Association-list lemmas for the environment model -/

theorem envGet_nil (j : String) : envGet [] j = none := rfl

theorem envGet_cons (q : String × String) (env : EnvMap) (j : String) :
    envGet (q :: env) j = if q.1 = j then some q.2 else envGet env j := by
  unfold envGet
  rw [List.find?_cons]
  by_cases h : q.1 = j <;> simp [h]

theorem envSet_cons_ne (q : String × String) (env : EnvMap) (k v : String)
    (h : ¬ q.1 = k) : envSet (q :: env) k v = q :: envSet env k v := by
  unfold envSet
  cases hA : env.any (fun r => decide (r.1 = k)) <;>
    simp [List.any_cons, h, hA]

theorem envSet_cons_eq (q : String × String) (env : EnvMap) (k v : String)
    (h : q.1 = k) :
    envSet (q :: env) k v
      = (k, v) :: env.map (fun r => if r.1 = k then (k, v) else r) := by
  unfold envSet
  simp [List.any_cons, h]

theorem envGet_map_replace (env : EnvMap) (k v j : String) (h : j ≠ k) :
    envGet (env.map (fun r => if r.1 = k then (k, v) else r)) j = envGet env j := by
  induction env with
  | nil => rfl
  | cons r rest ih =>
    rw [List.map_cons]
    by_cases hr : r.1 = k
    · have h1 : ¬ k = j := fun hh => h hh.symm
      rw [if_pos hr, envGet_cons, envGet_cons]
      simp only [h1, if_false, hr, ih]
    · rw [if_neg hr, envGet_cons, envGet_cons]
      by_cases hj : r.1 = j <;> simp [hj, ih]

theorem envGet_envSet_self (env : EnvMap) (k v : String) :
    envGet (envSet env k v) k = some v := by
  induction env with
  | nil => simp [envSet, envGet, List.find?]
  | cons q rest ih =>
    by_cases hq : q.1 = k
    · rw [envSet_cons_eq q rest k v hq, envGet_cons]
      simp
    · rw [envSet_cons_ne q rest k v hq, envGet_cons]
      simp [hq, ih]

theorem envGet_envSet_ne (env : EnvMap) (k v j : String) (h : j ≠ k) :
    envGet (envSet env k v) j = envGet env j := by
  induction env with
  | nil =>
    have h1 : ¬ k = j := fun hh => h hh.symm
    simp [envSet, envGet_cons, h1, envGet_nil]
  | cons q rest ih =>
    by_cases hq : q.1 = k
    · have h1 : ¬ k = j := fun hh => h hh.symm
      have h2 : ¬ q.1 = j := by rw [hq]; exact h1
      rw [envSet_cons_eq q rest k v hq, envGet_cons, envGet_cons]
      simp only [h1, h2, if_false]
      exact envGet_map_replace rest k v j h
    · rw [envSet_cons_ne q rest k v hq, envGet_cons, envGet_cons]
      by_cases hj : q.1 = j <;> simp [hj, ih]

theorem envGet_applyStep_ne (acc : EnvMap) (kv : String × Option String)
    (override : Bool) (j : String) (h : j ≠ kv.1) :
    envGet (applyStep acc kv override) j = envGet acc j := by
  unfold applyStep
  split
  · rfl
  · match hv : kv.2 with
    | some v => exact envGet_envSet_ne acc kv.1 v j h
    | none => rfl

theorem isSome_envGet_applyStep (acc : EnvMap) (kv : String × Option String)
    (override : Bool) (j : String) (h : (envGet acc j).isSome = true) :
    (envGet (applyStep acc kv override) j).isSome = true := by
  unfold applyStep
  split
  · exact h
  · match hv : kv.2 with
    | some v =>
      by_cases hj : j = kv.1
      · rw [hj, envGet_envSet_self]; rfl
      · rw [envGet_envSet_ne acc kv.1 v j hj]; exact h
    | none => exact h

theorem apply_env_nil (env : EnvMap) (override : Bool) :
    apply_env env [] override = env := rfl

theorem apply_env_cons (env : EnvMap) (kv : String × Option String)
    (d : EnvDict) (override : Bool) :
    apply_env env (kv :: d) override = apply_env (applyStep env kv override) d override := rfl

theorem envGet_apply_env_not_mem (env : EnvMap) (d : EnvDict) (override : Bool)
    (k : String) (h : k ∉ d.map Prod.fst) :
    envGet (apply_env env d override) k = envGet env k := by
  induction d generalizing env with
  | nil => rfl
  | cons kv rest ih =>
    rw [apply_env_cons]
    have hk : k ≠ kv.1 := by
      intro hh
      exact h (by simp [hh])
    have hrest : k ∉ rest.map Prod.fst := by
      intro hh
      exact h (by simp [hh])
    rw [ih (applyStep env kv override) hrest]
    exact envGet_applyStep_ne env kv override k hk

theorem isSome_envGet_apply_env (env : EnvMap) (d : EnvDict) (override : Bool)
    (k : String) (h : (envGet env k).isSome = true) :
    (envGet (apply_env env d override) k).isSome = true := by
  induction d generalizing env with
  | nil => exact h
  | cons kv rest ih =>
    rw [apply_env_cons]
    exact ih (applyStep env kv override) (isSome_envGet_applyStep env kv override k h)

/-! ### Dict lemmas -/

theorem mem_dictInsert (d : EnvDict) (k : String) (v : Option String)
    (kv : String × Option String) (h : kv ∈ dictInsert d k v) :
    kv ∈ d ∨ kv = (k, v) := by
  unfold dictInsert at h
  split at h
  · rcases List.mem_map.mp h with ⟨q, hq, hmap⟩
    by_cases hqk : q.1 = k
    · right
      rw [if_pos hqk] at hmap
      exact hmap.symm
    · left
      rw [if_neg hqk] at hmap
      exact hmap ▸ hq
  · rcases List.mem_append.mp h with h1 | h1
    · left; exact h1
    · right; simpa using h1

theorem mem_dictOfPairs_aux (l : EnvDict) (acc : EnvDict)
    (kv : String × Option String)
    (h : kv ∈ l.foldl (fun d q => dictInsert d q.1 q.2) acc) :
    kv ∈ acc ∨ kv ∈ l := by
  induction l generalizing acc with
  | nil => left; exact h
  | cons q rest ih =>
    rw [List.foldl_cons] at h
    rcases ih (dictInsert acc q.1 q.2) h with h1 | h1
    · rcases mem_dictInsert acc q.1 q.2 kv h1 with h2 | h2
      · left; exact h2
      · right; simp [h2]
    · right; exact List.mem_cons_of_mem q h1

theorem mem_dictOfPairs (l : EnvDict) (kv : String × Option String)
    (h : kv ∈ dictOfPairs l) : kv ∈ l := by
  rcases mem_dictOfPairs_aux l [] kv h with h1 | h1
  · exact absurd h1 (List.not_mem_nil kv)
  · exact h1

theorem dictOfPairs_aux_eq (l acc : EnvDict)
    (h : ((acc ++ l).map Prod.fst).Nodup) :
    l.foldl (fun d q => dictInsert d q.1 q.2) acc = acc ++ l := by
  induction l generalizing acc with
  | nil => simp
  | cons q rest ih =>
    rw [List.foldl_cons]
    have hnm : q.1 ∉ acc.map Prod.fst := by
      intro hmem
      rw [List.map_append] at h
      exact (List.nodup_append.mp h).2.2 hmem (by simp)
    have hq : acc.any (fun r => decide (r.1 = q.1)) = false := by
      rw [List.any_eq_false]
      intro r hr
      simp only [decide_eq_true_eq]
      intro heq
      exact hnm (List.mem_map.mpr ⟨r, hr, heq⟩)
    have hins : dictInsert acc q.1 q.2 = acc ++ [q] := by
      unfold dictInsert
      rw [hq]
      simp
    rw [hins]
    have h2 : (((acc ++ [q]) ++ rest).map Prod.fst).Nodup := by
      simpa [List.append_assoc] using h
    rw [ih (acc ++ [q]) h2]
    simp

theorem dictOfPairs_eq_self (l : EnvDict) (h : (l.map Prod.fst).Nodup) :
    dictOfPairs l = l := by
  unfold dictOfPairs
  exact dictOfPairs_aux_eq l [] (by simpa using h)

/-! ### Parser lemmas -/

theorem parse_env_line_isSome (raw : String) (kv : String × Option String)
    (h : parse_env_line raw = some kv) : kv.2.isSome = true := by
  unfold parse_env_line at h
  dsimp only at h
  split at h
  · split at h
    · exact absurd h (by simp)
    · split at h
      · split at h
        · exact absurd h (by simp)
        · cases h; rfl
      · exact absurd h (by simp)
  · exact absurd h (by simp)

theorem parse_bash_env_isSome (stream : String) (kv : String × Option String)
    (h : kv ∈ parse_bash_env stream) : kv.2.isSome = true := by
  unfold parse_bash_env at h
  rcases List.mem_filterMap.mp h with ⟨line, _, hline⟩
  exact parse_env_line_isSome line kv hline

/-! ### Walk-to-root lemmas -/

theorem walk_to_root_dirs_nil : walk_to_root_dirs [] = [[]] := rfl

theorem walk_to_root_dirs_cons (x : String) (xs : AbsPath) :
    walk_to_root_dirs (x :: xs) = (x :: xs) :: walk_to_root_dirs (x :: xs).dropLast := by
  have h : (x :: xs).dropLast.length = xs.length := by simp
  unfold walk_to_root_dirs
  rw [h]
  rfl

theorem walk_to_root_dirs_ne_nil (l : AbsPath) (h : l ≠ []) :
    walk_to_root_dirs l = l :: walk_to_root_dirs l.dropLast := by
  cases l with
  | nil => exact absurd rfl h
  | cons x xs => exact walk_to_root_dirs_cons x xs

theorem prefix_concat_iff (d xs : List String) (x : String) :
    d <+: xs ++ [x] ↔ d = xs ++ [x] ∨ d <+: xs := by
  constructor
  · rintro ⟨t, ht⟩
    rcases List.eq_nil_or_concat t with h1 | ⟨t2, y, h1⟩
    · left
      rw [h1, List.append_nil] at ht
      exact ht
    · right
      rw [h1, List.concat_eq_append, ← List.append_assoc] at ht
      exact ⟨t2, (List.append_inj' ht rfl).1⟩
  · rintro (h | h)
    · rw [h]
    · exact h.trans (List.prefix_append xs [x])

theorem mem_walk_to_root_dirs (l d : AbsPath) :
    d ∈ walk_to_root_dirs l ↔ d <+: l := by
  induction l using List.reverseRecOn with
  | nil =>
    rw [walk_to_root_dirs_nil]
    simp
  | append_singleton xs x ih =>
    rw [walk_to_root_dirs_ne_nil (xs ++ [x]) (by simp), List.dropLast_concat,
      List.mem_cons, ih, prefix_concat_iff]

theorem find?_walk_longest (l : AbsPath) (p : AbsPath → Bool) (d : AbsPath)
    (h : (walk_to_root_dirs l).find? p = some d) :
    d <+: l ∧ p d = true
    ∧ ∀ d2, d2 <+: l → p d2 = true → d2.length ≤ d.length := by
  induction l using List.reverseRecOn with
  | nil =>
    rw [walk_to_root_dirs_nil, List.find?_cons] at h
    split at h
    · cases h
      exact ⟨List.prefix_refl _, by assumption, fun d2 hd2 _ => hd2.length_le⟩
    · exact absurd h (by simp)
  | append_singleton xs x ih =>
    rw [walk_to_root_dirs_ne_nil _ (by simp), List.dropLast_concat,
      List.find?_cons] at h
    split at h
    · cases h
      exact ⟨List.prefix_refl _, by assumption, fun d2 hd2 _ => hd2.length_le⟩
    · rcases ih h with ⟨hpre, hpd, hmax⟩
      refine ⟨hpre.trans (List.prefix_append xs [x]), hpd, ?_⟩
      intro d2 hd2 hp2
      rcases (prefix_concat_iff d2 xs x).mp hd2 with h2 | h2
      · exfalso
        rw [h2] at hp2
        simp_all
      · exact hmax d2 h2 hp2

/-! ### Claims -/

/-- C1: the claim states that the file executed by the capture stage is
exactly the file that was fingerprinted and passed the TrustStore check,
and that no code execution occurs on a path that has not passed
is_allowed.  The code violates this: with a relative dotenv_path, the
trust check fingerprints the path resolved against the current working
directory, but the execution stage re-resolves the name with
find_direnv(dotenv_path) starting from the caller's directory.  In W1 the
call fingerprints and trust-checks /other/x.envrc (is_allowed true) yet
executes /proj/x.envrc, a path on which is_allowed is false. -/
theorem values_executes_path_that_never_passed_is_allowed :
    direnv_values W1 [] (some ⟨false, ["x.envrc"]⟩) none false true none
      = (.ok [("FOO", some "bar")], [["proj", "x.envrc"]])
    ∧ is_allowed W1 [] ⟨false, ["x.envrc"]⟩ = .ok true
    ∧ abspath W1 ⟨false, ["x.envrc"]⟩ = ["other", "x.envrc"]
    ∧ is_allowed W1 [] ⟨true, ["proj", "x.envrc"]⟩ = .ok false := by
  refine ⟨by decide, by decide, by decide, by decide⟩

/-- C2: the claim states that load returns true iff the reconciliation
diff is non-empty, and in particular returns false when resolution yields
no file.  The code's only return statement is an unconditional
`return True`: here resolution yields the empty path, the computed diff
is empty, no variable is written, and load still returns true. -/
theorem load_returns_true_on_empty_diff :
    direnv_values W1 [] (some emptyPath) none false true none = (.ok [], [])
    ∧ load_direnv W1 [] (some emptyPath) none false false true none
      = (.ok true, [], []) := by
  refine ⟨by decide, by decide⟩

/-- C4 counterexample: the claim states that every call supplying a text
stream is rejected with the stream-unsupported error regardless of the
other arguments.  When dotenv_path is also supplied the stream is ignored
instead: this call supplies a stream yet completes successfully, executing
the resolved file, for both values and load. -/
theorem stream_with_path_not_rejected :
    direnv_values W1 [] (some ⟨false, ["x.envrc"]⟩) (some "IGNORED") false true none
      = (.ok [("FOO", some "bar")], [["proj", "x.envrc"]])
    ∧ (load_direnv W1 [] (some ⟨false, ["x.envrc"]⟩) (some "IGNORED") false false true none).1
      = .ok true := by
  refine ⟨by decide, by decide⟩

/-- C3: for every explicitly supplied, resolvable (non-empty) file path on
which the allow-list gate answers false, both values and load raise
PermissionError naming the file; the returned environment is the one that
was passed in, unchanged, and the execution trace is empty, so no code
ran. -/
theorem untrusted_file_raises_permission_error (w : World) (env : EnvMap)
    (p : PyPath) (stream : Option String) (verbose override : Bool)
    (hp : p ≠ emptyPath) (hallow : is_allowed w env p = .ok false) :
    direnv_values w env (some p) stream verbose true none
      = (.error (.permissionError
          ("File " ++ renderPyPath p ++ " is not allowed by direnv.")), [])
    ∧ load_direnv w env (some p) stream verbose override true none
      = (.error (.permissionError
          ("File " ++ renderPyPath p ++ " is not allowed by direnv.")), env, []) := by
  have hv : direnv_values w env (some p) stream verbose true none
      = (.error (.permissionError
          ("File " ++ renderPyPath p ++ " is not allowed by direnv.")), []) := by
    simp [direnv_values, hp, hallow]
  exact ⟨hv, by simp [load_direnv, hv]⟩

/-- Witness for C3: in the concrete world W1, the absolute path
/proj/x.envrc exists but has no allow-list entry, and calling values on it
raises PermissionError. -/
theorem untrusted_file_raises_permission_error_witness :
    direnv_values W1 [] (some ⟨true, ["proj", "x.envrc"]⟩) none false true none
      = (.error (.permissionError
          ("File " ++ renderPyPath ⟨true, ["proj", "x.envrc"]⟩
            ++ " is not allowed by direnv.")), []) :=
  (untrusted_file_raises_permission_error W1 [] ⟨true, ["proj", "x.envrc"]⟩
    none false false (by decide) (by decide)).1

/-- C4 (amended): when dotenv_path is not supplied and the encoding and
interpolate guards pass, a supplied stream is always rejected with the
stream-unsupported NotImplementedError and nothing is executed, for both
values and load; when dotenv_path is also supplied the stream is ignored
rather than rejected. -/
theorem stream_without_path_rejected (w : World) (env : EnvMap) (s : String)
    (verbose override : Bool) :
    direnv_values w env none (some s) verbose true none
      = (.error (.notImplementedError
          "Executing shell commands from a stream is not safe."), [])
    ∧ load_direnv w env none (some s) verbose override true none
      = (.error (.notImplementedError
          "Executing shell commands from a stream is not safe."), env, []) := by
  have hv : direnv_values w env none (some s) verbose true none
      = (.error (.notImplementedError
          "Executing shell commands from a stream is not safe."), []) := by
    simp [direnv_values]
  exact ⟨hv, by simp [load_direnv, hv]⟩

/-- C5: the apply/merge policy of load_direnv's write-back loop, for a
dict with distinct keys (as every Python dict has): an entry whose key
already exists in the current environment is skipped when override is
false, keeping the existing value; otherwise a present value is written;
an entry with an absent value writes nothing; keys not in the dict are
untouched.  In particular, with current {a: c} and captured {a: b},
override=false keeps a=c and override=true sets a=b, and a key absent
from the current environment is set regardless of the flag. -/
theorem find?_key_cons_eq (k1 k : String) (v : Option String) (rest : EnvDict)
    (h : k1 = k) :
    List.find? (fun q => decide (q.1 = k)) ((k1, v) :: rest) = some (k1, v) := by
  simp [List.find?_cons, h]

theorem find?_key_cons_ne (k1 k : String) (v : Option String) (rest : EnvDict)
    (h : ¬ k1 = k) :
    List.find? (fun q => decide (q.1 = k)) ((k1, v) :: rest)
      = List.find? (fun q => decide (q.1 = k)) rest := by
  simp [List.find?_cons, h]

theorem apply_env_policy (env : EnvMap) (d : EnvDict) (override : Bool)
    (k : String) (hnd : (d.map Prod.fst).Nodup) :
    envGet (apply_env env d override) k =
      match d.find? (fun kv => decide (kv.1 = k)) with
      | some (_, some v) =>
        if envContains env k && !override then envGet env k else some v
      | some (_, none) => envGet env k
      | none => envGet env k := by
  induction d generalizing env with
  | nil => rfl
  | cons kv rest ih =>
    rw [List.map_cons, List.nodup_cons] at hnd
    obtain ⟨k1, v2⟩ := kv
    rw [apply_env_cons]
    by_cases hk : k1 = k
    · have hrest : k ∉ rest.map Prod.fst := by
        rw [← hk]
        exact hnd.1
      rw [find?_key_cons_eq k1 k v2 rest hk,
        envGet_apply_env_not_mem (applyStep env (k1, v2) override) rest override k hrest]
      cases v2 with
      | some v =>
        show envGet (applyStep env (k1, some v) override) k
          = if envContains env k && !override then envGet env k else some v
        by_cases hcond : (envContains env k && !override) = true
        · simp [applyStep, hk, hcond]
        · simp [applyStep, hk, hcond, envGet_envSet_self]
      | none =>
        show envGet (applyStep env (k1, none) override) k = envGet env k
        simp [applyStep]
    · have hne : k ≠ k1 := fun hh => hk hh.symm
      rw [find?_key_cons_ne k1 k v2 rest hk,
        ih (applyStep env (k1, v2) override) hnd.2]
      have hstep := envGet_applyStep_ne env (k1, v2) override k hne
      have hcont : envContains (applyStep env (k1, v2) override) k
          = envContains env k := by
        unfold envContains
        rw [hstep]
      cases hfind : rest.find? (fun q => decide (q.1 = k)) with
      | none => exact hstep
      | some q =>
        obtain ⟨q1, qv⟩ := q
        cases qv with
        | some v => rw [hcont, hstep]
        | none => exact hstep

/-- Witness for C5: the override examples from the claim, concluded by
applying apply_env_policy at each concrete input. -/
theorem apply_env_policy_witness :
    envGet (apply_env [("a", "c")] [("a", some "b")] false) "a" = some "c"
    ∧ envGet (apply_env [("a", "c")] [("a", some "b")] true) "a" = some "b"
    ∧ envGet (apply_env [] [("a", some "b")] false) "a" = some "b" := by
  refine ⟨?_, ?_, ?_⟩
  · rw [apply_env_policy [("a", "c")] [("a", some "b")] false "a" (by decide)]
    decide
  · rw [apply_env_policy [("a", "c")] [("a", some "b")] true "a" (by decide)]
    decide
  · rw [apply_env_policy [] [("a", some "b")] false "a" (by decide)]
    decide

/-- C6: the reconciliation diff drops every pair whose key is one of
OLDPWD, PWD, SHLVL, _ (whatever its value), and of the remaining pairs
keeps exactly those whose value differs from the current environment's
value for that key, a key absent from the environment (envGet = none)
counting as different; stated as a membership characterization for
captured sequences with distinct keys. -/
theorem reconcile_diff_spec (env : EnvMap)
    (items : List (String × Option String))
    (hnd : (items.map Prod.fst).Nodup) (k : String) (v : Option String) :
    (k, v) ∈ reconcile_diff env items ↔
      ((k, v) ∈ items ∧ k ∉ (["OLDPWD", "PWD", "SHLVL", "_"] : List String)
        ∧ envGet env k ≠ v) := by
  unfold reconcile_diff
  have hsub :
      List.Sublist
        (items.filter (fun kv => decide (kv.1 ∉ excludedKeys ∧ envGet env kv.1 ≠ kv.2)))
        items :=
    List.filter_sublist items
  have hnd2 :
      ((items.filter
        (fun kv => decide (kv.1 ∉ excludedKeys ∧ envGet env kv.1 ≠ kv.2))).map
          Prod.fst).Nodup :=
    hnd.sublist (hsub.map Prod.fst)
  rw [dictOfPairs_eq_self _ hnd2, List.mem_filter]
  simp [excludedKeys, and_assoc]

/-- Witness for C6: a pair with a fresh key and value is in the diff. -/
theorem reconcile_diff_spec_witness :
    ("NEW", some "1") ∈ reconcile_diff [("SAME", "x")]
      [("OLDPWD", some "z"), ("SAME", some "x"), ("NEW", some "1")] :=
  (reconcile_diff_spec [("SAME", "x")]
    [("OLDPWD", some "z"), ("SAME", some "x"), ("NEW", some "1")]
    (by decide) "NEW" (some "1")).mpr (by decide)

theorem is_allowed_eval (w : World) (env : EnvMap) (p : PyPath) (content : String)
    (hc : w.contents (abspath w p) = some content) :
    is_allowed w env p =
      (if pathExists w (allowEntryPath w env (abspath w p) content) then
        match w.contents (allowEntryPath w env (abspath w p) content) with
        | some stored => .ok (renderAbs (w.realpath (abspath w p)) == pyStrip stored)
        | none =>
          .error (.ioError
            ("cannot read " ++ renderAbs (allowEntryPath w env (abspath w p) content)))
      else .ok false) := by
  unfold is_allowed direnv_file_hash allowEntryPath
  dsimp only
  rw [hc]

/-- C7: assuming the candidate file is readable and the allow entry is not
a content-less directory, is_allowed returns ok true exactly when a file
exists at {data_home}/direnv/allow/{sha256-hex of "{abs_path}\n{contents}"}
whose content, stripped of surrounding whitespace, equals the
symlink-resolved real path of the candidate; in every other case (missing
entry or path mismatch) it returns ok false rather than raising. -/
theorem is_allowed_spec (w : World) (env : EnvMap) (p : PyPath) (content : String)
    (hc : w.contents (abspath w p) = some content)
    (hdir : w.isDir (allowEntryPath w env (abspath w p) content) = true →
      (w.contents (allowEntryPath w env (abspath w p) content)).isSome = true) :
    (is_allowed w env p = .ok true ↔
      ∃ stored,
        w.contents (allowEntryPath w env (abspath w p) content) = some stored
        ∧ pyStrip stored = renderAbs (w.realpath (abspath w p)))
    ∧ (is_allowed w env p = .ok true ∨ is_allowed w env p = .ok false) := by
  have heval := is_allowed_eval w env p content hc
  cases hentry : w.contents (allowEntryPath w env (abspath w p) content) with
  | some stored =>
    have hexists : pathExists w (allowEntryPath w env (abspath w p) content) = true := by
      simp [pathExists, hentry]
    rw [if_pos hexists, hentry] at heval
    dsimp only at heval
    rw [heval]
    constructor
    · constructor
      · intro h
        exact ⟨stored, rfl, (beq_iff_eq.mp (Except.ok.inj h)).symm⟩
      · rintro ⟨stored2, hs2, heq⟩
        have hss : stored = stored2 := Option.some.inj hs2
        rw [← hss] at heq
        rw [heq]
        simp
    · cases hbeq : (renderAbs (w.realpath (abspath w p)) == pyStrip stored) with
      | false => right; rfl
      | true => left; rfl
  | none =>
    cases hisdir : w.isDir (allowEntryPath w env (abspath w p) content) with
    | true => exact absurd (hdir hisdir) (by simp [hentry])
    | false =>
      have hexists : pathExists w (allowEntryPath w env (abspath w p) content) = false := by
        simp [pathExists, hentry, hisdir]
      rw [if_neg (by rw [hexists]; exact Bool.false_ne_true)] at heval
      rw [heval]
      constructor
      · constructor
        · intro h
          exact absurd (Except.ok.inj h) (by simp)
        · rintro ⟨stored, hs, _⟩
          exact Option.noConfusion hs
      · right; rfl

/-- Witness for C7: in W1, /other/x.envrc has a matching allow entry, so
is_allowed answers ok true, obtained through is_allowed_spec. -/
theorem is_allowed_spec_witness :
    is_allowed W1 [] ⟨false, ["x.envrc"]⟩ = .ok true :=
  ((is_allowed_spec W1 [] ⟨false, ["x.envrc"]⟩ "A" (by decide) (by decide)).1).mpr
    ⟨"/other/x.envrc", by decide, by decide⟩

/-- C8: for a relative target filename, when the starting path (cwd, or
the caller's directory) exists, find_direnv returns the join of the
target with the nearest ancestor directory of the walk start (the start
included) that contains the target as a file: any returned directory is
an ancestor (a prefix of the start's components), contains the file, and
no deeper ancestor containing the file exists; when a match exists some
directory is returned; when no ancestor up to the root contains the file,
find_direnv returns the empty-string sentinel, or raises the not-found
IOError in strict mode.  A non-existent starting path raises the
starting-path-not-found IOError. -/
theorem find_direnv_spec (w : World) (f : PyPath) (strict usecwd : Bool)
    (hrel : f.isAbs = false) :
    (pathExists w (findStart w usecwd) = false →
        find_direnv w f strict usecwd = .error (.ioError "Starting path not found"))
    ∧ (pathExists w (findStart w usecwd) = true →
        (∀ d, find_direnv w f strict usecwd = .ok ⟨true, d ++ f.comps⟩ →
            d <+: walkStart w (findStart w usecwd)
            ∧ isFile w (d ++ f.comps) = true
            ∧ ∀ d2, d2 <+: walkStart w (findStart w usecwd) →
                isFile w (d2 ++ f.comps) = true → d2.length ≤ d.length)
        ∧ ((∃ d, d <+: walkStart w (findStart w usecwd)
              ∧ isFile w (d ++ f.comps) = true) →
            ∃ d, find_direnv w f strict usecwd = .ok ⟨true, d ++ f.comps⟩)
        ∧ ((∀ d, d <+: walkStart w (findStart w usecwd) →
              isFile w (d ++ f.comps) = false) →
            find_direnv w f strict usecwd =
              if strict then .error (.ioError "File not found") else .ok emptyPath)) := by
  constructor
  · intro hex
    unfold find_direnv walk_to_root
    rw [if_neg (by rw [hex]; exact Bool.false_ne_true)]
  · intro hex
    have hfd : find_direnv w f strict usecwd =
        (match (walk_to_root_dirs (walkStart w (findStart w usecwd))).find?
            (fun d => isFile w (d ++ f.comps)) with
         | some d => .ok ⟨true, d ++ f.comps⟩
         | none =>
           if strict then .error (.ioError "File not found") else .ok emptyPath) := by
      unfold find_direnv walk_to_root
      rw [if_pos hex]
      simp only [joinPath, hrel, Bool.false_eq_true, if_false]
    refine ⟨?_, ?_, ?_⟩
    · intro d hd
      rw [hfd] at hd
      cases hfind : (walk_to_root_dirs (walkStart w (findStart w usecwd))).find?
          (fun d => isFile w (d ++ f.comps)) with
      | some d0 =>
        rw [hfind] at hd
        dsimp only at hd
        have hd0 : d0 ++ f.comps = d ++ f.comps :=
          congrArg PyPath.comps (Except.ok.inj hd)
        have hdd : d0 = d := List.append_cancel_right hd0
        rcases find?_walk_longest (walkStart w (findStart w usecwd))
          (fun d => isFile w (d ++ f.comps)) d0 hfind with ⟨hpre, hpd, hmax⟩
        rw [hdd] at hpre hpd
        refine ⟨hpre, hpd, ?_⟩
        intro d2 h2 hf2
        rw [← hdd]
        exact hmax d2 h2 hf2
      | none =>
        rw [hfind] at hd
        dsimp only at hd
        split at hd
        · exact absurd hd (by simp)
        · exact absurd (congrArg PyPath.isAbs (Except.ok.inj hd)) (by simp [emptyPath])
    · rintro ⟨d, hds, hdf⟩
      cases hfind : (walk_to_root_dirs (walkStart w (findStart w usecwd))).find?
          (fun d => isFile w (d ++ f.comps)) with
      | some d0 =>
        exact ⟨d0, by rw [hfd, hfind]⟩
      | none =>
        exfalso
        have := List.find?_eq_none.mp hfind d
          ((mem_walk_to_root_dirs (walkStart w (findStart w usecwd)) d).mpr hds)
        exact this hdf
    · intro hall
      rw [hfd]
      cases hfind : (walk_to_root_dirs (walkStart w (findStart w usecwd))).find?
          (fun d => isFile w (d ++ f.comps)) with
      | some d0 =>
        exfalso
        have hmem := List.mem_of_find?_eq_some hfind
        have hpre := (mem_walk_to_root_dirs (walkStart w (findStart w usecwd)) d0).mp hmem
        have hp := List.find?_some hfind
        rw [hall d0 hpre] at hp
        exact Bool.false_ne_true hp
      | none => rfl

/-- Witness for C8: in W1 the walk from /proj finds no file named nope in
/proj or /, so find_direnv returns the empty sentinel, obtained through
find_direnv_spec. -/
theorem find_direnv_spec_witness :
    find_direnv W1 ⟨false, ["nope"]⟩ false false = .ok emptyPath := by
  have h := (find_direnv_spec W1 ⟨false, ["nope"]⟩ false false rfl).2 (by decide)
  have hall : ∀ d, d <+: walkStart W1 (findStart W1 false) →
      isFile W1 (d ++ ["nope"]) = false := by
    intro d hd
    have hs : walkStart W1 (findStart W1 false) = ["proj"] := by decide
    rw [hs] at hd
    rcases hd with ⟨t, ht⟩
    cases d with
    | nil => decide
    | cons a as =>
      rw [List.cons_append] at ht
      injection ht with h1 h2
      have h3 : as = [] := (List.append_eq_nil.mp h2).1
      subst h1
      subst h3
      decide
  have := h.2.2 hall
  simpa using this

theorem mem_reconcile_parse_isSome (env : EnvMap) (stream : String)
    (kv : String × Option String)
    (h : kv ∈ reconcile_diff env (parse_bash_env stream)) : kv.2.isSome = true := by
  unfold reconcile_diff at h
  have h2 := mem_dictOfPairs _ kv h
  exact parse_bash_env_isSome stream kv (List.mem_filter.mp h2).1

/-- C9: every key in a dict successfully returned by direnv_values maps to
a present (non-absent) value: the line parser only yields pairs whose
value group matched as a string, so despite the declared optional value
type no key ever carries an absent value. -/
theorem values_result_has_no_absent_values (w : World) (env : EnvMap)
    (dp : Option PyPath) (s : Option String) (verbose interpolate : Bool)
    (enc : Option String) (d : EnvDict) (tr : List AbsPath)
    (hv : direnv_values w env dp s verbose interpolate enc = (.ok d, tr))
    (kv : String × Option String) (hkv : kv ∈ d) : kv.2.isSome = true := by
  unfold direnv_values at hv
  split at hv
  · exact absurd hv (by simp)
  · split at hv
    · exact absurd hv (by simp)
    · split at hv
      · exact absurd hv (by simp)
      · split at hv
        · have hd : d = [] := by
            have := congrArg Prod.fst hv
            simpa using this.symm
          rw [hd] at hkv
          exact absurd hkv (List.not_mem_nil kv)
        · split at hv
          · exact absurd hv (by simp)
          · exact absurd hv (by simp)
          · split at hv
            · exact absurd hv (by simp)
            · split at hv
              · exact absurd hv (by simp)
              · rename_i out tr1 heq
                have hd : d = reconcile_diff env (parse_bash_env out) := by
                  have := congrArg Prod.fst hv
                  simpa using this.symm
                rw [hd] at hkv
                exact mem_reconcile_parse_isSome env out kv hkv

/-- Witness for C9: the successful W1 call returns the singleton dict with
key FOO, whose value is present. -/
theorem values_result_has_no_absent_values_witness :
    (("FOO", some "bar") : String × Option String).2.isSome = true :=
  values_result_has_no_absent_values W1 [] (some ⟨false, ["x.envrc"]⟩) none
    false true none [("FOO", some "bar")] [["proj", "x.envrc"]] (by decide)
    ("FOO", some "bar") (by decide)

/-- C10: load never removes a variable: every key present in the
environment before a successful load is still present afterwards, and
every key not contained in the dict computed by direnv_values keeps its
exact prior value. -/
theorem load_never_removes_variables (w : World) (env : EnvMap)
    (dp : Option PyPath) (s : Option String) (verbose override interpolate : Bool)
    (enc : Option String) (d : EnvDict) (tr : List AbsPath) (b : Bool)
    (env2 : EnvMap) (tr2 : List AbsPath)
    (hv : direnv_values w env dp s verbose interpolate enc = (.ok d, tr))
    (hl : load_direnv w env dp s verbose override interpolate enc = (.ok b, env2, tr2)) :
    (∀ k, (envGet env k).isSome = true → (envGet env2 k).isSome = true)
    ∧ ∀ k, k ∉ d.map Prod.fst → envGet env2 k = envGet env k := by
  have henv2 : env2 = apply_env env d override := by
    unfold load_direnv at hl
    split at hl
    · exact absurd hl (by simp)
    · split at hl
      · exact absurd hl (by simp)
      · rw [hv] at hl
        have := congrArg (fun t => t.2.1) hl
        simpa using this.symm
  rw [henv2]
  constructor
  · intro k hk
    exact isSome_envGet_apply_env env d override k hk
  · intro k hk
    exact envGet_apply_env_not_mem env d override k hk

/-- Witness for C10: in W1 with prior environment {KEEP: 1}, load adds FOO
and the key KEEP, which is not in the computed dict, keeps its value. -/
theorem load_never_removes_variables_witness :
    envGet [("KEEP", "1"), ("FOO", "bar")] "KEEP" = envGet [("KEEP", "1")] "KEEP" :=
  (load_never_removes_variables W1 [("KEEP", "1")] (some ⟨false, ["x.envrc"]⟩)
    none false false true none [("FOO", some "bar")] [["proj", "x.envrc"]] true
    [("KEEP", "1"), ("FOO", "bar")] [["proj", "x.envrc"]]
    (by decide) (by decide)).2 "KEEP" (by decide)

end Direnv
